import Mathlib

/-!
Verification of the EDL generator (edl_generator.py).

The development shallowly embeds the program: pure text processing becomes
Lean functions on strings and character lists, file output becomes an
explicit list of (path, content) writes applied to a file-system map, and
the network-facing download step becomes a function of the fetched page
contents that also reports the network events it would perform.

Python standard-library routines used by the program (ipaddress.ip_network,
str.split, str.strip, re.search for the one fixed pattern, dict.get,
sorted) are modelled faithfully on strings; machine integers do not occur,
all address arithmetic is on Nat.
-/

namespace EdlGen

/-- Python str.split(sep) for a single-character separator, on char lists:
splitting the empty string yields one empty chunk, and every separator
occurrence starts a new chunk. -/
def splitOnChar (sep : Char) : List Char → List (List Char)
  | [] => [[]]
  | c :: cs =>
    if c = sep then [] :: splitOnChar sep cs
    else
      match splitOnChar sep cs with
      | [] => [[c]]
      | g :: gs => (c :: g) :: gs

/-- Hex digit set of ipaddress._HEX_DIGITS: 0-9, a-f, A-F. -/
def isHexChar (c : Char) : Bool :=
  c.isDigit || decide ('a' ≤ c ∧ c ≤ 'f') || decide ('A' ≤ c ∧ c ≤ 'F')

def digitVal (c : Char) : Nat := c.toNat - 48

def hexVal (c : Char) : Nat :=
  if c.isDigit then c.toNat - 48
  else if decide ('a' ≤ c ∧ c ≤ 'f') then c.toNat - 87
  else c.toNat - 55

/-- Value of a decimal digit string (int(s, 10) on an all-digit string). -/
def decimalVal (ds : List Char) : Nat := ds.foldl (fun a c => a * 10 + digitVal c) 0

/-- Value of a hex digit string (int(s, 16) on an all-hex string). -/
def hexNatVal (ds : List Char) : Nat := ds.foldl (fun a c => a * 16 + hexVal c) 0

/-- ipaddress._BaseV4._parse_octet: nonempty, ASCII decimal digits only, at
most 3 characters, no leading zero (except the single octet "0"), value at
most 255. -/
def parseOctet (octet : List Char) : Option Nat :=
  if octet.isEmpty then none
  else if !octet.all Char.isDigit then none
  else if 3 < octet.length then none
  else if octet ≠ ['0'] ∧ octet.head? = some '0' then none
  else
    let v := decimalVal octet
    if 255 < v then none else some v

/-- ipaddress._BaseV4._ip_int_from_string: exactly four dot-separated
octets, each parsed by _parse_octet, big-endian byte composition. -/
def ipv4AddrInt (cs : List Char) : Option Nat :=
  if cs.isEmpty then none
  else
    match (splitOnChar '.' cs).mapM parseOctet with
    | some [a, b, c, d] => some (((a * 256 + b) * 256 + c) * 256 + d)
    | _ => none

/-- ipaddress._prefix_from_prefix_string: ASCII decimal digits only (so no
sign or whitespace), value at most the maximum prefix length. -/
def prefixFromPrefixStr (ds : List Char) (maxLen : Nat) : Option Nat :=
  if ds.isEmpty then none
  else if !ds.all Char.isDigit then none
  else
    let p := decimalVal ds
    if maxLen < p then none else some p

/-- The w-bit netmask integer with p leading one bits. -/
def maskInt (w p : Nat) : Nat := (2 ^ w - 1) - (2 ^ (w - p) - 1)

/-- ipaddress._prefix_from_ip_int: the prefix length p such that ip is the
canonical w-bit netmask with p leading ones, if there is one. -/
def prefixFromIpInt (w ip : Nat) : Option Nat :=
  (List.range (w + 1)).find? (fun p => ip == maskInt w p)

/-- ipaddress._prefix_from_ip_string on an already parsed address integer:
accept a netmask, otherwise accept a hostmask (the bitwise complement,
which for ip < 2^w is 2^w - 1 - ip). -/
def prefixFromIpIntOrHost (w ip : Nat) : Option Nat :=
  match prefixFromIpInt w ip with
  | some p => some p
  | none => prefixFromIpInt w ((2 ^ w - 1) - ip)

/-- IPv4Network._make_netmask on the string after the slash: a prefix
length in decimal, else a dotted-quad netmask or hostmask. -/
def ipv4Netmask (m : List Char) : Option Nat :=
  match prefixFromPrefixStr m 32 with
  | some p => some p
  | none =>
    match ipv4AddrInt m with
    | some ip => prefixFromIpIntOrHost 32 ip
    | none => none

/-- Result of ipaddress.ip_network on a string: the IP version, the network
address integer, and the prefix length. Only the version is consumed by the
program. -/
structure IpNet where
  version : Nat
  addr : Nat
  prefixlen : Nat
deriving DecidableEq, Repr

/-- IPv4Network(s, strict=False): at most one slash; address by
_ip_int_from_string; missing netmask means /32; host bits are masked, not
rejected (strict=False). -/
def ipv4Network (cs : List Char) : Option IpNet :=
  match splitOnChar '/' cs with
  | [a] =>
    match ipv4AddrInt a with
    | some ip => some ⟨4, ip, 32⟩
    | none => none
  | [a, m] =>
    match ipv4AddrInt a, ipv4Netmask m with
    | some ip, some p => some ⟨4, ip - ip % 2 ^ (32 - p), p⟩
    | _, _ => none
  | _ => none

/-- ipaddress._BaseV6._parse_hextet: hex digits only, at most 4 characters,
nonempty (int of the empty string raises). -/
def parseHextet (h : List Char) : Option Nat :=
  if !h.all isHexChar then none
  else if 4 < h.length then none
  else if h.isEmpty then none
  else some (hexNatVal h)

def hexDigitChar (n : Nat) : Char :=
  if n < 10 then Char.ofNat (48 + n) else Char.ofNat (87 + n)

/-- Lowercase hex rendering without leading zeros of a value below 2^16,
as produced by the %x format when folding an IPv4 suffix into hextets. -/
def hexQuad (v : Nat) : List Char :=
  let ds := [v / 4096 % 16, v / 256 % 16, v / 16 % 16, v % 16].map hexDigitChar
  match ds.dropWhile (fun c => c = '0') with
  | [] => ['0']
  | r => r

/-- Fold a run of hextets into an integer, 16 bits per hextet, failing if
any hextet is malformed. -/
def hextetsVal (parts : List (List Char)) : Option Nat :=
  parts.foldlM (fun acc h => (parseHextet h).map (fun v => acc * 65536 + v)) 0

/-- ipaddress._BaseV6._ip_int_from_string on the colon-separated parts:
at least 3 parts; an IPv4-style last part is converted to two hextets; at
most 9 parts; at most one interior empty part (the double colon), with a
leading or trailing empty part only next to it; without a double colon
exactly 8 nonempty parts. -/
def ipv6AddrFromParts (parts0 : List (List Char)) : Option Nat :=
  if parts0.length < 3 then none
  else
    let conv : Option (List (List Char)) :=
      match parts0.getLast? with
      | some lastPart =>
        if lastPart.contains '.' then
          match ipv4AddrInt lastPart with
          | some v4 => some (parts0.dropLast ++ [hexQuad (v4 / 65536), hexQuad (v4 % 65536)])
          | none => none
        else some parts0
      | none => none
    match conv with
    | none => none
    | some parts =>
      let n := parts.length
      if 9 < n then none
      else
        let skips := (List.range n).filter
          (fun i => decide (0 < i ∧ i + 1 < n ∧ parts.getD i ['x'] = []))
        match skips with
        | [] =>
          if n ≠ 8 then none
          else if parts.head? = some [] then none
          else if parts.getLast? = some [] then none
          else hextetsVal parts
        | [i] =>
          let hiCnt0 := i
          let loCnt0 := n - i - 1
          let hiOk : Option Nat :=
            if parts.getD 0 ['x'] = [] then (if hiCnt0 = 1 then some 0 else none)
            else some hiCnt0
          let loOk : Option Nat :=
            if parts.getLast? = some [] then (if loCnt0 = 1 then some 0 else none)
            else some loCnt0
          match hiOk, loOk with
          | some hiCnt, some loCnt =>
            if 8 ≤ hiCnt + loCnt then none
            else
              let skipped := 8 - (hiCnt + loCnt)
              match hextetsVal (parts.take hiCnt), hextetsVal (parts.drop (n - loCnt)) with
              | some hv, some lv => some (hv * 2 ^ (16 * (skipped + loCnt)) + lv)
              | _, _ => none
          | _, _ => none
        | _ => none

/-- IPv6Address._split_scope_id: at most one percent sign, with a nonempty
scope id after it; the scope id itself is not otherwise validated here and
does not influence the network value. -/
def splitScopeChars (cs : List Char) : Option (List Char) :=
  match splitOnChar '%' cs with
  | [a] => some a
  | [a, sc] => if sc.isEmpty then none else some a
  | _ => none

def ipv6AddrInt (cs : List Char) : Option Nat :=
  match splitScopeChars cs with
  | some a => ipv6AddrFromParts (splitOnChar ':' a)
  | none => none

def ipv6AddrIntNoScope (cs : List Char) : Option Nat :=
  ipv6AddrFromParts (splitOnChar ':' cs)

/-- IPv6Network._make_netmask: a prefix length in decimal, else an IPv6
address (without scope) that is a netmask or hostmask. -/
def ipv6Netmask (m : List Char) : Option Nat :=
  match prefixFromPrefixStr m 128 with
  | some p => some p
  | none =>
    match ipv6AddrIntNoScope m with
    | some ip => prefixFromIpIntOrHost 128 ip
    | none => none

/-- IPv6Network(s, strict=False). -/
def ipv6Network (cs : List Char) : Option IpNet :=
  match splitOnChar '/' cs with
  | [a] => (ipv6AddrInt a).map (fun ip => ⟨6, ip, 128⟩)
  | [a, m] =>
    match ipv6AddrInt a, ipv6Netmask m with
    | some ip, some p => some ⟨6, ip - ip % 2 ^ (128 - p), p⟩
    | _, _ => none
  | _ => none

/-- ipaddress.ip_network(s, strict=False) on a string: try IPv4Network,
fall back to IPv6Network, and report failure (None here, ValueError there)
when both reject. -/
def ip_network (s : String) : Option IpNet :=
  match ipv4Network s.data with
  | some net => some net
  | none => ipv6Network s.data

/-! ## The tag records and build_edls -/

/-- One entry of the service-tag list. The record name models
tag.get("name") (absent or JSON null collapse to none); addressPrefixes
models tag.get("properties", {}).get("addressPrefixes", ...), with an
absent properties object or an absent or null list collapsing to none. -/
structure TagRecord where
  name : Option String
  addressPrefixes : Option (List String)
deriving DecidableEq, Repr

/-- Python truthiness of the looked-up name: None and the empty string are
falsy. -/
def pyTruthyStrOpt : Option String → Bool
  | none => false
  | some s => !(s == "")

/-- props.get("addressPrefixes", []): a missing list defaults to []. -/
def getPrefixes (t : TagRecord) : List String := t.addressPrefixes.getD []

/-- The test include_tags and name not in include_tags: with a None or
empty (falsy) include list the check is skipped entirely. -/
def includeRejects (include_tags : Option (List String)) (n : String) : Bool :=
  match include_tags with
  | none => false
  | some l => !l.isEmpty && !l.contains n

/-- The test exclude_tags and name in exclude_tags. -/
def excludeRejects (exclude_tags : Option (List String)) (n : String) : Bool :=
  match exclude_tags with
  | none => false
  | some l => !l.isEmpty && l.contains n

def spaceSub (c : Char) : Char := if c = ' ' then '_' else c

/-- tag_name.replace(" ", "_"): replacing one single character by another
is a character-wise map. -/
def normalise_filename (tag_name : String) : String :=
  String.mk (tag_name.data.map spaceSub)

/-- Content written by write_prefix_file: one line per prefix, each
terminated by a newline. -/
def linesOf : List String → String
  | [] => ""
  | p :: rest => p ++ "\n" ++ linesOf rest

/-- split_prefixes_by_ip_version: classify each prefix with
ip_network(pfx, strict=False); version 4 goes to the first list, any other
parsed version to the second, parse failures to neither; source order is
preserved. -/
def split_prefixes_by_ip_version : List String → List String × List String
  | [] => ([], [])
  | pfx :: rest =>
    let r := split_prefixes_by_ip_version rest
    match ip_network pfx with
    | none => r
    | some net => if net.version = 4 then (pfx :: r.1, r.2) else (r.1, pfx :: r.2)

/-- A prefix the loop appends to the ipv4 list. -/
def classifyV4 (p : String) : Bool :=
  match ip_network p with
  | some net => net.version == 4
  | none => false

/-- A prefix the loop appends to the ipv6 list. -/
def classifyV6 (p : String) : Bool :=
  match ip_network p with
  | some net => net.version != 4
  | none => false

/-- build_edls: its effect is the ordered list of (path, content) file
writes together with the returned (tag name, base filename) entries. The
directory creation has no observable effect in this model. Paths join the
output directory and the file name with a slash, as Path division does for
a plain file name. -/
def build_edls : List TagRecord → String → Option (List String) → Option (List String) →
    List (String × String) × List (String × String)
  | [], _, _, _ => ([], [])
  | t :: rest, dir, inc, exc =>
    let r := build_edls rest dir inc exc
    if pyTruthyStrOpt t.name = false ∨ (getPrefixes t).isEmpty then r
    else
      let n := t.name.getD ""
      if includeRejects inc n then r
      else if excludeRejects exc n then r
      else
        let base := normalise_filename n
        ((dir ++ "/" ++ (base ++ ".txt"), linesOf (getPrefixes t)) ::
         (dir ++ "/" ++ (base ++ "-v4.txt"),
            linesOf (split_prefixes_by_ip_version (getPrefixes t)).1) ::
         (dir ++ "/" ++ (base ++ "-v6.txt"),
            linesOf (split_prefixes_by_ip_version (getPrefixes t)).2) :: r.1,
         (n, base) :: r.2)

/-! ## The document parser extract_values -/

/-- JSON values as produced by json.loads: JSON null becomes Python None,
which is also what dict.get returns for a missing key. -/
inductive JVal where
  | null
  | bool (b : Bool)
  | int (n : Int)
  | str (s : String)
  | list (l : List JVal)
  | dict (d : List (String × JVal))

/-- Python truthiness of a JSON value. -/
def truthy : JVal → Bool
  | .null => false
  | .bool b => b
  | .int n => n != 0
  | .str s => !(s == "")
  | .list l => !l.isEmpty
  | .dict d => !d.isEmpty

/-- root.get(k): a missing key yields None. Keys of a parsed JSON object
are unique, so first-match lookup is adequate. -/
def dictGet (d : List (String × JVal)) (k : String) : JVal :=
  match d.find? (fun kv => kv.1 == k) with
  | some kv => kv.2
  | none => .null

/-- extract_values: values = root.get("values") or root.get("value"), then
the isinstance(values, list) gate. The or operator selects the first
operand only when it is truthy. (Error message abridged: the quotes around
the field names are dropped.) -/
def extract_values (root : List (String × JVal)) : Except String (List JVal) :=
  let v := if truthy (dictGet root "values") then dictGet root "values"
           else dictGet root "value"
  match v with
  | .list l => .ok l
  | _ => .error "ServiceTags JSON does not contain a values or value list."

/-! ## The source locator -/

def jsonUrlLit : List Char := "https://download.microsoft.com/download/".data

def tagLit : List Char := "ServiceTags_Public_".data

def jsonSuffixLit : List Char := ".json".data

/-- Match the regex tail ServiceTags_Public_[0-9]+\.json at the head of the
input; the greedy digit run is unambiguous because a dot is not a digit. -/
def matchTailAt (cs : List Char) : Option (List Char) :=
  if tagLit.isPrefixOf cs then
    let rest := cs.drop tagLit.length
    let ds := rest.takeWhile Char.isDigit
    if ds.isEmpty then none
    else if jsonSuffixLit.isPrefixOf (rest.drop ds.length) then
      some (tagLit ++ ds ++ jsonSuffixLit)
    else none
  else none

/-- Greedy backtracking match of the regex segment
[^"]*ServiceTags_Public_[0-9]+\.json at the head of the input: prefer to
extend the star, fall back to matching the tail at the current position. -/
def matchMiddle : List Char → Option (List Char)
  | [] => matchTailAt []
  | c :: cs =>
    if c = '"' then matchTailAt (c :: cs)
    else
      match matchMiddle cs with
      | some m => some (c :: m)
      | none => matchTailAt (c :: cs)

/-- re.search of JSON_URL_PATTERN: leftmost match start, greedy extent. -/
def searchJsonUrl : List Char → Option (List Char)
  | [] => none
  | c :: cs =>
    match
      (if jsonUrlLit.isPrefixOf (c :: cs) then
        (matchMiddle ((c :: cs).drop jsonUrlLit.length)).map (fun m => jsonUrlLit ++ m)
      else none) with
    | some m => some m
    | none => searchJsonUrl cs

/-- find_json_url: the matched URL text, if the pattern occurs. -/
def find_json_url (html : String) : Option String :=
  (searchJsonUrl html.data).map (fun l => String.mk l)

/-- Observable network and file effects of download_servicetags_json. -/
inductive NetEvent where
  | getDetails
  | getConfirm
  | getJson (url : String)
  | writeFile (path : String)
deriving DecidableEq, Repr

/-- download_servicetags_json, as a function of the two page contents that
fetch_url would return: search the details page; only when that fails,
fetch and search the confirmation page; when both fail, raise before any
JSON download or file write. The result is the event trace paired with the
discovered URL or the error. -/
def download_servicetags_json (detailsHtml confirmHtml : String)
    (save_path : Option String) : List NetEvent × Except String String :=
  let saveEvents : List NetEvent :=
    match save_path with
    | some p => [NetEvent.writeFile p]
    | none => []
  match find_json_url detailsHtml with
  | some u => ([NetEvent.getDetails, NetEvent.getJson u] ++ saveEvents, .ok u)
  | none =>
    match find_json_url confirmHtml with
    | some u => ([NetEvent.getDetails, NetEvent.getConfirm, NetEvent.getJson u] ++ saveEvents,
                 .ok u)
    | none => ([NetEvent.getDetails, NetEvent.getConfirm],
               .error "Could not find ServiceTags_Public JSON URL on Microsoft download pages.")

/-! ## The URL index writer -/

/-- base_url.rstrip("/"). -/
def rstripSlash (s : String) : String :=
  String.mk (((s.data.reverse.dropWhile (fun c => c = '/'))).reverse)

/-- output_dir.as_posix().strip("/"). Path.as_posix is modelled as the
identity: the claims exercise output directories already given in
normalised POSIX form (no single-dot components, no duplicate slashes),
on which as_posix returns the input unchanged. -/
def stripSlash (s : String) : String :=
  String.mk (((s.data.dropWhile (fun c => c = '/')).reverse.dropWhile (fun c => c = '/')).reverse)

/-- s.lower() for the sort key, character-wise; like Char.toLower this
covers the ASCII letters. -/
def pyLower (s : String) : String := String.mk (s.data.map Char.toLower)

/-- Comparison used by sorted(entries, key=lambda item: item[0].lower()). -/
def entryLe (a b : String × String) : Prop := pyLower a.1 ≤ pyLower b.1

instance : DecidableRel entryLe := fun a b =>
  inferInstanceAs (Decidable (pyLower a.1 ≤ pyLower b.1))

instance : IsTotal (String × String) entryLe :=
  ⟨fun a b => le_total (pyLower a.1) (pyLower b.1)⟩

instance : IsTrans (String × String) entryLe :=
  ⟨fun _ _ _ h1 h2 => le_trans h1 h2⟩

/-- Python sorted is the unique stable sort for the key order; insertion
sort with the non-strict key order computes it. -/
def sortEntries (l : List (String × String)) : List (String × String) :=
  l.insertionSort entryLe

/-- The three index lines of one entry, in the fixed label order
all, ipv4, ipv6, each line name,url,label. -/
def indexLinesFor (urlPref : String) (e : String × String) : List String :=
  [e.1 ++ "," ++ (urlPref ++ "/" ++ (e.2 ++ ".txt")) ++ ",all",
   e.1 ++ "," ++ (urlPref ++ "/" ++ (e.2 ++ "-v4.txt")) ++ ",ipv4",
   e.1 ++ "," ++ (urlPref ++ "/" ++ (e.2 ++ "-v6.txt")) ++ ",ipv6"]

/-- The lines write_url_index emits, in order. -/
def write_url_index_lines (entries : List (String × String)) (output_dir base_url : String) :
    List String :=
  let b := rstripSlash base_url
  let rel := stripSlash output_dir
  let urlPref := if rel = "" then b else b ++ "/" ++ rel
  (sortEntries entries).flatMap (indexLinesFor urlPref)

/-- The byte content write_url_index writes: the lines joined by newlines,
plus a trailing newline. -/
def write_url_index_content (entries : List (String × String)) (output_dir base_url : String) :
    String :=
  String.intercalate "\n" (write_url_index_lines entries output_dir base_url) ++ "\n"

/-! ## File system model and the pipeline -/

/-- A file system: path to file content. -/
def FS : Type := String → Option String

/-- Opening a file for writing truncates it: the new content replaces
whatever was there. -/
def fsWrite (fs : FS) (path content : String) : FS :=
  fun p => if p = path then some content else fs p

/-- Apply a list of writes in order. -/
def applyWrites : List (String × String) → FS → FS
  | [], fs => fs
  | w :: ws, fs => applyWrites ws (fsWrite fs w.1 w.2)

/-- write_url_index as a file-system operation. -/
def write_url_index_run (fs : FS) (entries : List (String × String))
    (output_dir base_url index_path : String) : FS :=
  fsWrite fs index_path (write_url_index_content entries output_dir base_url)

/-- All writes one run of the pipeline performs after the document is in
hand: the per-tag files of build_edls, then optionally the URL index. -/
def pipeline_writes (values : List TagRecord) (dir : String)
    (inc exc : Option (List String)) (base_url : String) (index_path : Option String) :
    List (String × String) :=
  let r := build_edls values dir inc exc
  r.1 ++ (match index_path with
          | some p => [(p, write_url_index_content r.2 dir base_url)]
          | none => [])

/-- One run of the pipeline applied to a file system. -/
def run_pipeline (fs : FS) (values : List TagRecord) (dir : String)
    (inc exc : Option (List String)) (base_url : String) (index_path : Option String) : FS :=
  applyWrites (pipeline_writes values dir inc exc base_url index_path) fs

/-- pfx occurs as a full line of a prefix-file content. -/
def hasLine (content pfx : String) : Prop :=
  ∃ s t, content = linesOf s ++ ((pfx ++ "\n") ++ linesOf t)

/-! ## Helper lemmas -/

theorem linesOf_append (a b : List String) : linesOf (a ++ b) = linesOf a ++ linesOf b := by
  induction a with
  | nil => simp [linesOf]
  | cons p rest ih => simp [linesOf, ih, String.append_assoc]

theorem hasLine_of_mem {l : List String} {pfx : String} (h : pfx ∈ l) :
    hasLine (linesOf l) pfx := by
  obtain ⟨s, t, rfl⟩ := List.append_of_mem h
  exact ⟨s, t, by rw [linesOf_append]; rfl⟩

theorem split_eq_filter (l : List String) :
    split_prefixes_by_ip_version l = (l.filter classifyV4, l.filter classifyV6) := by
  induction l with
  | nil => rfl
  | cons pfx rest ih =>
    cases h : ip_network pfx with
    | none =>
      simp [split_prefixes_by_ip_version, ih, List.filter_cons, classifyV4, classifyV6, h]
    | some net =>
      by_cases hv : net.version = 4 <;>
        simp [split_prefixes_by_ip_version, ih, List.filter_cons, classifyV4, classifyV6, h, hv]

theorem ipv4Network_version {cs : List Char} {net : IpNet}
    (h : ipv4Network cs = some net) : net.version = 4 := by
  unfold ipv4Network at h
  repeat' split at h
  all_goals first
    | exact Option.noConfusion h
    | (injection h with h2; rw [← h2])

theorem ipv6Network_version {cs : List Char} {net : IpNet}
    (h : ipv6Network cs = some net) : net.version = 6 := by
  unfold ipv6Network at h
  repeat' split at h
  all_goals first
    | exact Option.noConfusion h
    | (injection h with h2; rw [← h2])
    | (rw [Option.map_eq_some'] at h
       obtain ⟨ip, -, hv⟩ := h
       rw [← hv])

theorem ip_network_version {s : String} {net : IpNet}
    (h : ip_network s = some net) : net.version = 4 ∨ net.version = 6 := by
  unfold ip_network at h
  split at h
  case _ heq => exact Or.inl (by cases h; exact ipv4Network_version heq)
  case _ => exact Or.inr (ipv6Network_version h)

theorem build_edls_cons_skip {t : TagRecord} (rest : List TagRecord) (dir : String)
    (inc exc : Option (List String))
    (h : pyTruthyStrOpt t.name = false ∨ (getPrefixes t).isEmpty) :
    build_edls (t :: rest) dir inc exc = build_edls rest dir inc exc := by
  simp only [build_edls]
  rw [if_pos h]

theorem build_edls_cons_write {t : TagRecord} (rest : List TagRecord) (dir : String)
    (inc exc : Option (List String)) {n : String}
    (hn : t.name = some n) (hne : n ≠ "") (hp : getPrefixes t ≠ [])
    (hinc : includeRejects inc n = false) (hexc : excludeRejects exc n = false) :
    build_edls (t :: rest) dir inc exc =
      ((dir ++ "/" ++ (normalise_filename n ++ ".txt"), linesOf (getPrefixes t)) ::
       (dir ++ "/" ++ (normalise_filename n ++ "-v4.txt"),
          linesOf (split_prefixes_by_ip_version (getPrefixes t)).1) ::
       (dir ++ "/" ++ (normalise_filename n ++ "-v6.txt"),
          linesOf (split_prefixes_by_ip_version (getPrefixes t)).2) ::
          (build_edls rest dir inc exc).1,
       (n, normalise_filename n) :: (build_edls rest dir inc exc).2) := by
  have htr : pyTruthyStrOpt t.name = true := by
    rw [hn]; simp [pyTruthyStrOpt, hne]
  have hpe : (getPrefixes t).isEmpty = false := by
    simp [List.isEmpty_eq_false, hp]
  simp only [build_edls]
  rw [if_neg (by simp [htr, hpe])]
  rw [hn]
  simp only [Option.getD_some]
  rw [if_neg (by simp [hinc]), if_neg (by simp [hexc])]

theorem mem_entries_filters :
    ∀ (values : List TagRecord) (dir : String) (inc exc : Option (List String))
      (n b : String), (n, b) ∈ (build_edls values dir inc exc).2 →
      includeRejects inc n = false ∧ excludeRejects exc n = false := by
  intro values dir inc exc n b
  induction values with
  | nil => intro h; exact absurd h (by simp [build_edls])
  | cons t rest ih =>
    intro h
    by_cases h1 : pyTruthyStrOpt t.name = false ∨ (getPrefixes t).isEmpty
    · exact ih (by rwa [build_edls_cons_skip rest dir inc exc h1] at h)
    · push_neg at h1
      obtain ⟨m, hm⟩ : ∃ m, t.name = some m := by
        cases hs : t.name with
        | none => exact absurd (by simp [pyTruthyStrOpt, hs]) h1.1
        | some m => exact ⟨m, rfl⟩
      have hmne : m ≠ "" := by
        intro hc; exact h1.1 (by simp [pyTruthyStrOpt, hm, hc])
      have hpne : getPrefixes t ≠ [] := by
        intro hc; exact absurd (by simp [hc]) h1.2
      by_cases hic : includeRejects inc m
      · rw [show build_edls (t :: rest) dir inc exc = build_edls rest dir inc exc by
            simp only [build_edls]
            rw [if_neg (by simp [pyTruthyStrOpt, hm, hmne,
              List.isEmpty_eq_false.mpr hpne]), hm]
            simp only [Option.getD_some]
            rw [if_pos hic]] at h
        exact ih h
      · by_cases hec : excludeRejects exc m
        · rw [show build_edls (t :: rest) dir inc exc = build_edls rest dir inc exc by
              simp only [build_edls]
              rw [if_neg (by simp [pyTruthyStrOpt, hm, hmne,
                List.isEmpty_eq_false.mpr hpne]), hm]
              simp only [Option.getD_some]
              rw [if_neg (by simp [hic]), if_pos hec]] at h
          exact ih h
        · rw [build_edls_cons_write rest dir inc exc hm hmne hpne
            (Bool.eq_false_iff.mpr hic) (Bool.eq_false_iff.mpr hec)] at h
          rcases List.mem_cons.mp h with heq | hmem
          · obtain ⟨h1, -⟩ := Prod.ext_iff.mp heq
            simp only at h1
            subst h1
            exact ⟨Bool.eq_false_iff.mpr hic, Bool.eq_false_iff.mpr hec⟩
          · exact ih hmem

theorem build_edls_empty_include_aux (values : List TagRecord) (dir : String)
    (exc : Option (List String)) :
    build_edls values dir (some []) exc = build_edls values dir none exc := by
  induction values with
  | nil => rfl
  | cons t rest ih => simp [build_edls, includeRejects, ih]

/-! ## Claim theorems -/

/-- C9: calling build_edls with a present but empty include list disables
the include filter entirely: the membership check rejects nothing, and the
run is identical to a run with no include filter at all. -/
theorem build_edls_c9_empty_include (values : List TagRecord) (dir : String)
    (exc : Option (List String)) (n : String) :
    includeRejects (some []) n = false ∧
    build_edls values dir (some []) exc = build_edls values dir none exc :=
  ⟨rfl, build_edls_empty_include_aux values dir exc⟩

/-- C10: write_url_index on an empty entry sequence still writes the index
file, and its content is exactly one newline character. -/
theorem write_url_index_c10_empty (dir base_url index_path : String) (fs : FS) :
    write_url_index_content [] dir base_url = "\n" ∧
    write_url_index_run fs [] dir base_url index_path index_path = some "\n" := by
  refine ⟨rfl, ?_⟩
  show (if index_path = index_path then some (write_url_index_content [] dir base_url)
        else fs index_path) = some "\n"
  rw [if_pos rfl]
  rfl

/-- C2 fails as stated: under the root with the single field "values"
holding the empty list, the lookup under "values" yields a sequence, yet
extract_values raises the malformed-document error, because the or-chain
treats the falsy empty list as absent. -/
theorem extract_values_c2_counterexample :
    dictGet [("values", JVal.list [])] "values" = JVal.list [] ∧
    extract_values [("values", JVal.list [])] =
      Except.error "ServiceTags JSON does not contain a values or value list." :=
  ⟨rfl, rfl⟩

/-- C2 amended: the two lookups treat Python-falsy values as absent. The
parser selects the "values" entry when that entry is truthy and otherwise
the "value" entry; it returns the selected value exactly when it is a
list, and fails with the malformed-document error otherwise. In particular
an empty list under "values" falls through to "value", and a truthy
non-list under "values" fails even when "value" holds a list. -/
theorem extract_values_c2_amended (root : List (String × JVal)) (l : List JVal) :
    extract_values root = Except.ok l ↔
      ((dictGet root "values" = JVal.list l ∧ l ≠ []) ∨
       (truthy (dictGet root "values") = false ∧ dictGet root "value" = JVal.list l)) := by
  unfold extract_values
  by_cases ht : truthy (dictGet root "values") = true
  · rw [if_pos ht]
    constructor
    · intro hok
      cases hv : dictGet root "values" with
      | list l2 =>
        rw [hv] at hok ht
        injection hok with h
        subst h
        simp only [truthy, Bool.not_eq_true', List.isEmpty_eq_false] at ht
        exact Or.inl ⟨rfl, ht⟩
      | null => rw [hv] at hok; exact Except.noConfusion hok
      | bool b => rw [hv] at hok; exact Except.noConfusion hok
      | int m => rw [hv] at hok; exact Except.noConfusion hok
      | str s => rw [hv] at hok; exact Except.noConfusion hok
      | dict d => rw [hv] at hok; exact Except.noConfusion hok
    · rintro (⟨hv, -⟩ | ⟨hf, -⟩)
      · rw [hv]
      · rw [hf] at ht; exact Bool.noConfusion ht
  · rw [if_neg ht]
    have hf : truthy (dictGet root "values") = false := Bool.eq_false_iff.mpr ht
    constructor
    · intro hok
      cases hv : dictGet root "value" with
      | list l2 =>
        rw [hv] at hok
        injection hok with h
        subst h
        exact Or.inr ⟨hf, rfl⟩
      | null => rw [hv] at hok; exact Except.noConfusion hok
      | bool b => rw [hv] at hok; exact Except.noConfusion hok
      | int m => rw [hv] at hok; exact Except.noConfusion hok
      | str s => rw [hv] at hok; exact Except.noConfusion hok
      | dict d => rw [hv] at hok; exact Except.noConfusion hok
    · rintro (⟨hv, hl⟩ | ⟨-, hv⟩)
      · rw [hv] at hf
        simp only [truthy, Bool.not_eq_false', List.isEmpty_iff] at hf
        exact absurd hf hl
      · rw [hv]

/-- C4: a record with a missing or empty name, or a missing or empty
prefix list, contributes no file writes and no returned entry (and the
model is total, so nothing is raised); a record passing those checks and
the include and exclude filters contributes exactly the three files of its
tag and exactly one (name, base) entry. -/
theorem build_edls_c4 (t : TagRecord) (rest : List TagRecord) (dir : String)
    (inc exc : Option (List String)) :
    ((t.name = none ∨ t.name = some "" ∨ getPrefixes t = []) →
      build_edls (t :: rest) dir inc exc = build_edls rest dir inc exc) ∧
    (∀ n, t.name = some n → n ≠ "" → getPrefixes t ≠ [] →
      includeRejects inc n = false → excludeRejects exc n = false →
      build_edls (t :: rest) dir inc exc =
        ((dir ++ "/" ++ (normalise_filename n ++ ".txt"), linesOf (getPrefixes t)) ::
         (dir ++ "/" ++ (normalise_filename n ++ "-v4.txt"),
            linesOf (split_prefixes_by_ip_version (getPrefixes t)).1) ::
         (dir ++ "/" ++ (normalise_filename n ++ "-v6.txt"),
            linesOf (split_prefixes_by_ip_version (getPrefixes t)).2) ::
            (build_edls rest dir inc exc).1,
         (n, normalise_filename n) :: (build_edls rest dir inc exc).2)) := by
  constructor
  · intro h
    apply build_edls_cons_skip
    rcases h with h | h | h
    · exact Or.inl (by simp [pyTruthyStrOpt, h])
    · exact Or.inl (by simp [pyTruthyStrOpt, h])
    · exact Or.inr (by simp [h])
  · intro n hn hne hp hinc hexc
    exact build_edls_cons_write rest dir inc exc hn hne hp hinc hexc

theorem build_edls_c4_witness :
    build_edls [⟨some "", some ["10.0.0.0/8"]⟩] "out" none none = build_edls [] "out" none none ∧
    (build_edls [⟨some "Tag1", some ["10.0.0.0/8"]⟩] "out" none none).2 = [("Tag1", "Tag1")] := by
  constructor
  · exact (build_edls_c4 ⟨some "", some ["10.0.0.0/8"]⟩ [] "out" none none).1
      (Or.inr (Or.inl rfl))
  · rw [(build_edls_c4 ⟨some "Tag1", some ["10.0.0.0/8"]⟩ [] "out" none none).2 "Tag1"
      rfl (by decide) (by decide) rfl rfl]
    rfl

/-- C6: filename derivation substitutes an underscore for every space and
nothing else, character by character; the derived base is shared by the
three files of the tag; and two names that differ at some position where
neither holds a space derive different bases. -/
theorem normalise_filename_c6 (n1 n2 : String) (i : Nat) (c1 c2 : Char)
    (nm dir : String) (prefixes : List String) (rest : List TagRecord)
    (inc exc : Option (List String)) :
    ((normalise_filename n1).data[i]? = (n1.data[i]?).map spaceSub) ∧
    (nm ≠ "" → prefixes ≠ [] → includeRejects inc nm = false → excludeRejects exc nm = false →
      (build_edls (⟨some nm, some prefixes⟩ :: rest) dir inc exc).1.map Prod.fst =
        (dir ++ "/" ++ (normalise_filename nm ++ ".txt")) ::
        (dir ++ "/" ++ (normalise_filename nm ++ "-v4.txt")) ::
        (dir ++ "/" ++ (normalise_filename nm ++ "-v6.txt")) ::
        (build_edls rest dir inc exc).1.map Prod.fst) ∧
    (n1.data[i]? = some c1 → n2.data[i]? = some c2 → c1 ≠ ' ' → c2 ≠ ' ' → c1 ≠ c2 →
      normalise_filename n1 ≠ normalise_filename n2) := by
  refine ⟨by simp [normalise_filename, List.getElem?_map], ?_, ?_⟩
  · intro h1 h2 h3 h4
    rw [build_edls_cons_write rest dir inc exc rfl h1
      (show getPrefixes ⟨some nm, some prefixes⟩ ≠ [] from h2) h3 h4]
    simp
  · intro h1 h2 hs1 hs2 hne heq
    have hd : (normalise_filename n1).data[i]? = (normalise_filename n2).data[i]? := by
      rw [heq]
    rw [normalise_filename, normalise_filename] at hd
    simp only [List.getElem?_map, h1, h2, Option.map_some'] at hd
    rw [spaceSub, spaceSub, if_neg hs1, if_neg hs2] at hd
    exact hne (Option.some.inj hd)

theorem normalise_filename_c6_witness :
    (build_edls [(⟨some "East US", some ["10.0.0.0/8"]⟩ : TagRecord)] "edl" none none).1.map
        Prod.fst = ["edl/East_US.txt", "edl/East_US-v4.txt", "edl/East_US-v6.txt"] ∧
    normalise_filename "ab" ≠ normalise_filename "ac" := by
  have h := normalise_filename_c6 "ab" "ac" 1 'b' 'c' "East US" "edl" ["10.0.0.0/8"] [] none none
  constructor
  · rw [h.2.1 (by decide) (by decide) rfl rfl]
    rfl
  · exact h.2.2 (by decide) (by decide) (by decide) (by decide) (by decide)

/-- C3 fails as stated for a present but empty include set: the record
named "A" is written even though "A" is not a member of the given empty
include set, because a falsy include list disables the membership test. -/
theorem build_edls_c3_counterexample :
    (build_edls [⟨some "A", some ["10.0.0.0/8"]⟩] "out" (some []) none).2 = [("A", "A")] ∧
    "A" ∉ ([] : List String) :=
  ⟨rfl, by decide⟩

/-- C3 amended: a non-empty include set admits only records whose name is
a member; a given exclude set (whatever the include setting) never lets a
record whose name is a member be written; and for include {A, B} with
exclude {B}, only the record named A is written. The amendment restricts
the include clause to non-empty include sets: the code treats a present
but empty include list as no include filter at all. -/
theorem build_edls_c3_filters (values : List TagRecord) (dir : String)
    (incl excl : List String) (inc exc : Option (List String)) (n b : String) :
    (incl ≠ [] → (n, b) ∈ (build_edls values dir (some incl) exc).2 → n ∈ incl) ∧
    ((n, b) ∈ (build_edls values dir inc (some excl)).2 → n ∉ excl) ∧
    ((build_edls [⟨some "A", some ["10.0.0.0/8"]⟩, ⟨some "B", some ["2001:db8::/32"]⟩] dir
        (some ["A", "B"]) (some ["B"])).2.map Prod.fst = ["A"]) := by
  refine ⟨?_, ?_, rfl⟩
  · intro hne hmem
    have h := (mem_entries_filters values dir (some incl) exc n b hmem).1
    simp only [includeRejects] at h
    rw [List.isEmpty_eq_false.mpr hne] at h
    simpa using h
  · intro hmem hc
    have h := (mem_entries_filters values dir inc (some excl) n b hmem).2
    simp only [excludeRejects] at h
    rw [List.isEmpty_eq_false.mpr (List.ne_nil_of_mem hc)] at h
    simp at h
    exact h hc

theorem build_edls_c3_filters_witness :
    ("A" ∈ (["A", "B"] : List String)) ∧ ("A" ∉ (["B"] : List String)) ∧
    ((build_edls [⟨some "A", some ["10.0.0.0/8"]⟩, ⟨some "B", some ["2001:db8::/32"]⟩] "out"
        (some ["A", "B"]) (some ["B"])).2.map Prod.fst = ["A"]) := by
  have h := build_edls_c3_filters
    [⟨some "A", some ["10.0.0.0/8"]⟩, ⟨some "B", some ["2001:db8::/32"]⟩] "out"
    ["A", "B"] ["B"] (some ["A", "B"]) (some ["B"]) "A" "A"
  exact ⟨h.1 (by decide) (by decide), fun hc => h.2.1 (by decide) hc, h.2.2⟩

/-- C5 fails as stated when the stripped output directory is empty: for
the output directory "/" the code emits base/file with a single
separator, not the base//file that the claimed url formula yields. -/
theorem write_url_index_c5_counterexample :
    write_url_index_lines [("A", "A")] "/" "https://x" =
      ["A,https://x/A.txt,all", "A,https://x/A-v4.txt,ipv4", "A,https://x/A-v6.txt,ipv6"] ∧
    write_url_index_lines [("A", "A")] "/" "https://x" ≠
      ["A," ++ (rstripSlash "https://x" ++ "/" ++ stripSlash "/" ++ "/" ++ "A.txt") ++ ",all",
       "A," ++ (rstripSlash "https://x" ++ "/" ++ stripSlash "/" ++ "/" ++ "A-v4.txt") ++ ",ipv4",
       "A," ++ (rstripSlash "https://x" ++ "/" ++ stripSlash "/" ++ "/" ++ "A-v6.txt") ++ ",ipv6"] := by
  constructor <;> decide

/-- C5 amended: the emitted sequence is an entryLe-sorted permutation of
the entries (case-insensitive by tag name), each entry contributes its
three lines in the fixed variant order all, ipv4, ipv6, and whenever the
stripped output-directory path is non-empty each url is the
trailing-slash-stripped base URL, a slash, the stripped directory path, a
slash, and the variant filename; when the stripped directory path is
empty, the directory segment and its separator are omitted. -/
theorem write_url_index_c5 (entries : List (String × String)) (dir burl : String) :
    List.Sorted entryLe (sortEntries entries) ∧
    List.Perm (sortEntries entries) entries ∧
    (stripSlash dir ≠ "" →
      write_url_index_lines entries dir burl =
        (sortEntries entries).flatMap
          (indexLinesFor (rstripSlash burl ++ "/" ++ stripSlash dir))) ∧
    (stripSlash dir = "" →
      write_url_index_lines entries dir burl =
        (sortEntries entries).flatMap (indexLinesFor (rstripSlash burl))) := by
  refine ⟨List.sorted_insertionSort entryLe entries,
    List.perm_insertionSort entryLe entries, ?_, ?_⟩
  · intro h
    simp only [write_url_index_lines]
    rw [if_neg h]
  · intro h
    simp only [write_url_index_lines]
    rw [if_pos h]

theorem write_url_index_c5_witness :
    stripSlash "edl" ≠ "" ∧
    write_url_index_lines [("East US", "East_US")] "edl" "https://x.test" =
      ["East US,https://x.test/edl/East_US.txt,all",
       "East US,https://x.test/edl/East_US-v4.txt,ipv4",
       "East US,https://x.test/edl/East_US-v6.txt,ipv6"] := by
  refine ⟨by decide, ?_⟩
  rw [(write_url_index_c5 [("East US", "East_US")] "edl" "https://x.test").2.2.1 (by decide)]
  decide

/-- C7: the locator searches the details page; exactly when that search
fails does it fetch and search the confirmation page; and when both
searches fail the run stops with the resource-not-found error, having
performed no JSON download and no file write. -/
theorem download_c7 (detailsHtml confirmHtml : String) (save_path : Option String) :
    ((∃ u, find_json_url detailsHtml = some u) →
      NetEvent.getConfirm ∉ (download_servicetags_json detailsHtml confirmHtml save_path).1) ∧
    (find_json_url detailsHtml = none →
      NetEvent.getConfirm ∈ (download_servicetags_json detailsHtml confirmHtml save_path).1) ∧
    (find_json_url detailsHtml = none → find_json_url confirmHtml = none →
      (download_servicetags_json detailsHtml confirmHtml save_path).2 =
        Except.error
          "Could not find ServiceTags_Public JSON URL on Microsoft download pages." ∧
      (∀ u, NetEvent.getJson u ∉
        (download_servicetags_json detailsHtml confirmHtml save_path).1) ∧
      (∀ p, NetEvent.writeFile p ∉
        (download_servicetags_json detailsHtml confirmHtml save_path).1)) := by
  refine ⟨?_, ?_, ?_⟩
  · rintro ⟨u, hu⟩
    cases save_path <;> simp [download_servicetags_json, hu]
  · intro hd
    cases hc : find_json_url confirmHtml <;> cases save_path <;>
      simp [download_servicetags_json, hd, hc]
  · intro hd hc
    refine ⟨by simp [download_servicetags_json, hd, hc], ?_, ?_⟩ <;>
      intro x <;> simp [download_servicetags_json, hd, hc]

theorem download_c7_witness :
    find_json_url "no link here" = none ∧
    (download_servicetags_json "no link here" "also nothing" none).2 =
      Except.error
        "Could not find ServiceTags_Public JSON URL on Microsoft download pages." ∧
    NetEvent.getConfirm ∈ (download_servicetags_json "no link here" "also nothing" none).1 := by
  have h := download_c7 "no link here" "also nothing" none
  exact ⟨by decide, (h.2.2 (by decide) (by decide)).1, h.2.1 (by decide)⟩

theorem applyWrites_notMem : ∀ (ws : List (String × String)) (fs : FS) (p : String),
    p ∉ ws.map Prod.fst → applyWrites ws fs p = fs p := by
  intro ws
  induction ws with
  | nil => intro fs p _; rfl
  | cons w t ih =>
    intro fs p hp
    simp only [List.map_cons, List.mem_cons] at hp
    push_neg at hp
    rw [applyWrites, ih _ p hp.2]
    simp [fsWrite, hp.1]

theorem applyWrites_congr : ∀ (ws : List (String × String)) (f g : FS),
    (∀ p, p ∉ ws.map Prod.fst → f p = g p) → applyWrites ws f = applyWrites ws g := by
  intro ws
  induction ws with
  | nil => intro f g h; funext p; exact h p (by simp)
  | cons w t ih =>
    intro f g h
    rw [applyWrites, applyWrites]
    apply ih
    intro p hp
    by_cases hw : p = w.1
    · simp [fsWrite, hw]
    · simp only [fsWrite, if_neg hw]
      exact h p (by simp [List.mem_cons, hw, hp])

theorem applyWrites_mem : ∀ (ws : List (String × String)) (f g : FS) (p : String),
    p ∈ ws.map Prod.fst → applyWrites ws f p = applyWrites ws g p := by
  intro ws
  induction ws with
  | nil => intro f g p h; exact absurd h (by simp)
  | cons w t ih =>
    intro f g p h
    by_cases hm : p ∈ t.map Prod.fst
    · rw [applyWrites, applyWrites]
      exact ih _ _ p hm
    · have hw : p = w.1 := by
        rw [List.map_cons] at h
        rcases List.mem_cons.mp h with h1 | h2
        · exact h1
        · exact absurd h2 hm
      rw [applyWrites, applyWrites, applyWrites_notMem t _ p hm, applyWrites_notMem t _ p hm]
      simp [fsWrite, hw]

/-- C8: the list of writes a run performs depends only on the inputs, and
each write fully replaces the target file, so a second identical run
leaves the file system exactly as the first did, and every written file
is byte-identical whatever the prior state of the file system was. -/
theorem run_pipeline_c8 (values : List TagRecord) (dir : String)
    (inc exc : Option (List String)) (burl : String) (idx : Option String) (fs fs2 : FS) :
    run_pipeline (run_pipeline fs values dir inc exc burl idx) values dir inc exc burl idx =
      run_pipeline fs values dir inc exc burl idx ∧
    (∀ p, p ∈ (pipeline_writes values dir inc exc burl idx).map Prod.fst →
      run_pipeline fs values dir inc exc burl idx p =
        run_pipeline fs2 values dir inc exc burl idx p) := by
  constructor
  · unfold run_pipeline
    apply applyWrites_congr
    intro p hp
    exact applyWrites_notMem _ fs p hp
  · intro p hp
    unfold run_pipeline
    exact applyWrites_mem _ fs fs2 p hp

theorem run_pipeline_c8_witness :
    "i.txt" ∈ (pipeline_writes [] "out" none none "b" (some "i.txt")).map Prod.fst ∧
    run_pipeline (fun _ => none) [] "out" none none "b" (some "i.txt") "i.txt" =
      run_pipeline (fun _ => some "old") [] "out" none none "b" (some "i.txt") "i.txt" := by
  refine ⟨by decide, ?_⟩
  exact (run_pipeline_c8 [] "out" none none "b" (some "i.txt")
    (fun _ => none) (fun _ => some "old")).2 "i.txt" (by decide)

/-- C1: for a written record every prefix of its list is a line of the
combined file; a prefix on which ip_network succeeds is classified by the
parsed version (always 4 or 6) into exactly one of the two version lists,
whose rendered contents are the version files; and a prefix on which
ip_network fails lands in neither version list. -/
theorem build_edls_c1 (prefixes : List String) (pfx : String) (rest : List TagRecord)
    (dir nm : String) (inc exc : Option (List String))
    (hmem : pfx ∈ prefixes) (hnm : nm ≠ "")
    (hinc : includeRejects inc nm = false) (hexc : excludeRejects exc nm = false) :
    (build_edls (⟨some nm, some prefixes⟩ :: rest) dir inc exc).1 =
      (dir ++ "/" ++ (normalise_filename nm ++ ".txt"), linesOf prefixes) ::
      (dir ++ "/" ++ (normalise_filename nm ++ "-v4.txt"),
         linesOf (split_prefixes_by_ip_version prefixes).1) ::
      (dir ++ "/" ++ (normalise_filename nm ++ "-v6.txt"),
         linesOf (split_prefixes_by_ip_version prefixes).2) ::
         (build_edls rest dir inc exc).1 ∧
    hasLine (linesOf prefixes) pfx ∧
    (∀ net, ip_network pfx = some net →
      (net.version = 4 ∨ net.version = 6) ∧
      (net.version = 4 →
        pfx ∈ (split_prefixes_by_ip_version prefixes).1 ∧
        pfx ∉ (split_prefixes_by_ip_version prefixes).2 ∧
        hasLine (linesOf (split_prefixes_by_ip_version prefixes).1) pfx) ∧
      (net.version = 6 →
        pfx ∈ (split_prefixes_by_ip_version prefixes).2 ∧
        pfx ∉ (split_prefixes_by_ip_version prefixes).1 ∧
        hasLine (linesOf (split_prefixes_by_ip_version prefixes).2) pfx)) ∧
    (ip_network pfx = none →
      pfx ∉ (split_prefixes_by_ip_version prefixes).1 ∧
      pfx ∉ (split_prefixes_by_ip_version prefixes).2) := by
  have hp : prefixes ≠ [] := List.ne_nil_of_mem hmem
  refine ⟨?_, hasLine_of_mem hmem, ?_, ?_⟩
  · exact congrArg Prod.fst (build_edls_cons_write rest dir inc exc rfl hnm
      (show getPrefixes ⟨some nm, some prefixes⟩ ≠ [] from hp) hinc hexc)
  · intro net hnet
    rw [split_eq_filter]
    refine ⟨ip_network_version hnet, ?_, ?_⟩
    · intro h4
      have hc4 : classifyV4 pfx = true := by simp [classifyV4, hnet, h4]
      have hc6 : classifyV6 pfx = false := by simp [classifyV6, hnet, h4]
      refine ⟨List.mem_filter.mpr ⟨hmem, hc4⟩, ?_,
        hasLine_of_mem (List.mem_filter.mpr ⟨hmem, hc4⟩)⟩
      intro hc
      exact absurd (List.mem_filter.mp hc).2 (by simp [hc6])
    · intro h6
      have hc4 : classifyV4 pfx = false := by simp [classifyV4, hnet, h6]
      have hc6 : classifyV6 pfx = true := by simp [classifyV6, hnet, h6]
      refine ⟨List.mem_filter.mpr ⟨hmem, hc6⟩, ?_,
        hasLine_of_mem (List.mem_filter.mpr ⟨hmem, hc6⟩)⟩
      intro hc
      exact absurd (List.mem_filter.mp hc).2 (by simp [hc4])
  · intro hnone
    rw [split_eq_filter]
    constructor <;> intro hc <;> have hcl := (List.mem_filter.mp hc).2 <;>
      simp [classifyV4, classifyV6, hnone] at hcl

theorem build_edls_c1_witness :
    "10.0.0.0/8" ∈
      (split_prefixes_by_ip_version ["10.0.0.0/8", "2001:db8::/32", "not-an-ip"]).1 ∧
    "10.0.0.0/8" ∉
      (split_prefixes_by_ip_version ["10.0.0.0/8", "2001:db8::/32", "not-an-ip"]).2 := by
  have h := build_edls_c1 ["10.0.0.0/8", "2001:db8::/32", "not-an-ip"] "10.0.0.0/8" []
    "out" "Tag1" none none (by decide) (by decide) rfl rfl
  have h4 := (h.2.2.1 ⟨4, 167772160, 8⟩ (by decide)).2.1 rfl
  exact ⟨h4.1, h4.2.1⟩

end EdlGen
